import Mathlib

/-!
Verification development for the 15-minute time tracker.

Shallow embedding of the extension's core logic:
* `popup.js` — label submission (tagging screen), label-set editing;
* the background service worker (`background.js`) — timer state check,
  interrupt triggering, alarm scheduling, message handlers;
* `utils.js` — storage helpers and the insight engine
  (`generateDailyInsight`, `generateWeeklyInsights`).

Timestamps are modelled as `Int` (JS `Date.now()` millisecond values);
hour amounts as `ℚ` (the JS floats involved are exact dyadic rationals,
multiples of 0.25, so `ℚ` arithmetic agrees with IEEE doubles here).
Storage objects become a record; JS truthiness of the relevant values
(`null`/`undefined`/`0`/`""` are falsy) is modelled explicitly.
-/

namespace TimeTracker

/-- JS truthiness for an optional number (`null`/`undefined`/`0` are falsy). -/
def optIntTruthy : Option Int → Bool
  | some v => v != 0
  | none => false

/-- JS `x || d` for an optional number: `d` when `x` is falsy. -/
def jsOrInt (x : Option Int) (d : Int) : Int :=
  match x with
  | some v => if v = 0 then d else v
  | none => d

/-- JS truthiness for an optional string (`null`/`undefined`/`""` are falsy). -/
def optStrFalsy : Option String → Bool
  | some s => s == ""
  | none => true

/-- JS `str.toLowerCase()` (ASCII, which covers every label and keyword used). -/
def jsToLower (s : String) : String :=
  String.mk (s.data.map Char.toLower)

/-- JS `str.trim()`: strip whitespace from both ends. -/
def jsTrim (s : String) : String :=
  String.mk (((s.data.dropWhile Char.isWhitespace).reverse.dropWhile
    Char.isWhitespace).reverse)

/-- JS `haystack.includes(needle)`: substring containment. -/
def strContains (haystack needle : String) : Bool :=
  haystack.data.tails.any (fun t => needle.data.isPrefixOf t)

/-- `DEFAULT_LABELS` from `popup.js`. -/
def DEFAULT_LABELS : List String := ["Work", "Meetings", "Break", "Planning", "Other"]

/-- `NOTE_CHAR_LIMIT` from `popup.js`. -/
def NOTE_CHAR_LIMIT : Nat := 100

/-- `INTERRUPT_INTERVAL` from the background worker: 15 minutes in ms. -/
def INTERRUPT_INTERVAL : Int := 15 * 60 * 1000

/-- A completed, labeled block (JS field `end` is `endTime` here). -/
structure TimeBlock where
  start : Int
  endTime : Int
  label : String
  note : Option String
  dailyPriority : Option String
deriving DecidableEq, Repr

/-- The stored pending block: `{start, end}` awaiting a label. -/
structure PendingBlock where
  start : Int
  endTime : Int
deriving DecidableEq, Repr

/-- The `chrome.storage.local` fields the popup-level operations touch. -/
structure Storage where
  timeBlocks : List TimeBlock
  pendingBlock : Option PendingBlock
  dailyPriority : List (String × String)
  customLabels : Option (List String)
deriving DecidableEq, Repr

/-- Association-list lookup (JS `obj[key]`, by first matching key). -/
def lookupD {α : Type} (m : List (String × α)) (k : String) (d : α) : α :=
  match m.find? (fun p => p.1 == k) with
  | some p => p.2
  | none => d

/-- `getLabels` from `popup.js`/`utils.js`: stored labels or the default set. -/
def getLabels (s : Storage) : List String :=
  s.customLabels.getD DEFAULT_LABELS

/-- `saveLabels` from `popup.js`: writes only the `customLabels` field. -/
def saveLabels (s : Storage) (labels : List String) : Storage :=
  { s with customLabels := some labels }

/-- `saveTimeBlock` from `utils.js`: read the list, push, write it back. -/
def saveTimeBlock (s : Storage) (tb : TimeBlock) : Storage :=
  { s with timeBlocks := s.timeBlocks ++ [tb] }

/-- `getTodayPriority` from `utils.js`: `priorities[today] || null`. -/
def getTodayPriority (s : Storage) (today : String) : Option String :=
  let p := lookupD s.dailyPriority today ""
  if p = "" then none else some p

/-- JS `noteInput.value.trim() || null`. -/
def jsTrimOrNull (v : String) : Option String :=
  let t := jsTrim v
  if t = "" then none else some t

/-- The first durable write of the tagging-screen submit handler
(`popup.js`, `submitBtn.onclick`): build the TimeBlock from the popup's
captured pending block and append it via `saveTimeBlock`.  `memPB` is the
module-level `pendingBlock` variable read from storage when the popup
opened. -/
def submitStep1 (memPB : PendingBlock) (label : String) (noteValue : String)
    (today : String) (s : Storage) : Storage :=
  saveTimeBlock s
    { start := memPB.start
      endTime := memPB.endTime
      label := label
      note := jsTrimOrNull noteValue
      dailyPriority := getTodayPriority s today }

/-- The full submit handler (`popup.js` lines 160–200): validation guards
(label selected, note within the limit), then the append, then the second
durable write that sets `pendingBlock` to `null`. -/
def submitLabel (memPB : PendingBlock) (selectedLabel : Option String)
    (noteValue : String) (today : String) (s : Storage) : Storage :=
  match selectedLabel with
  | none => s
  | some label =>
      if noteValue.length > NOTE_CHAR_LIMIT then s
      else { submitStep1 memPB label noteValue today s with pendingBlock := none }

/-- `editLabel`'s save handler (`popup.js` lines 941–1002): validates the
trimmed new name (nonempty, ≤ 50 chars, no duplicate other than itself),
then overwrites the label at `index` and calls `saveLabels`.  `currentName`
is the label at `index` when the edit began. -/
def editLabelOp (s : Storage) (index : Nat) (rawNewName : String) : Storage :=
  let newName := jsTrim rawNewName
  if newName.length = 0 then s
  else if newName.length > 50 then s
  else
    let labels := getLabels s
    let currentName := labels.getD index ""
    if labels.contains newName && newName ≠ currentName then s
    else saveLabels s (labels.set index newName)

/-- `deleteLabel` (`popup.js`): splice out the label at `index`; if the list
becomes empty, reset to the defaults.  (The confirmation dialog is the
user's input; this models the confirmed path.) -/
def deleteLabelOp (s : Storage) (index : Nat) : Storage :=
  let labels := (getLabels s).eraseIdx index
  if labels = [] then saveLabels s DEFAULT_LABELS
  else saveLabels s labels

/-! ### Insight engine (`utils.js`) -/

/-- One `labelCounts` update inside the `blocks.forEach` loop: create the
key with 0 when absent (then immediately increment), else increment.
JS objects keep insertion order, modelled by an association list. -/
def bump (m : List (String × Nat)) (k : String) : List (String × Nat) :=
  if m.any (fun p => p.1 == k) then
    m.map (fun p => if p.1 == k then (p.1, p.2 + 1) else p)
  else m ++ [(k, 1)]

/-- The `labelCounts` object: every configured label starts at 0 (in label
order), then each block bumps its own label. -/
def labelCounts (blocks : List TimeBlock) (labels : List String) :
    List (String × Nat) :=
  blocks.foldl (fun m b => bump m b.label) (labels.map (fun l => (l, 0)))

/-!
The JS code turns counts into hours with `count * 0.25` and then only ever
compares these values (`>`, `>= 1.0`, `> 0`, `> maxMismatchHours`) or
renders them with `toFixed(1)`.  Every such value is an exact dyadic
rational, and multiplication by the positive constant 0.25 preserves every
comparison, so hour amounts are carried in exact quarter-hour units
(`Nat`, the block count itself): `labelHours[l] = labelCounts[l] * 0.25`
is represented by the count, the JS threshold `1.0` hours is `4` units,
and `quartersToHours` converts back to ℚ for the stated claims. -/

/-- Quarter-hour units to hours: `c * 0.25`. -/
def quartersToHours (c : Nat) : ℚ := (c : ℚ) * (1 / 4)

/-- `Object.keys(labelHours).reduce((a, b) => hours[a] > hours[b] ? a : b)`:
the running key is kept only when its hours are strictly greater, so the
last key attaining the maximum wins.  (JS `reduce` throws on an empty key
list; that case is unreachable because the callers guard on nonempty
blocks, and is given the dummy value `""` here.) -/
def reduceMaxKey (hours : List (String × Nat)) : String :=
  match hours.map (fun p => p.1) with
  | [] => ""
  | k :: ks =>
      ks.foldl (fun a b => if lookupD hours a 0 > lookupD hours b 0 then a else b) k

/-- The fixed `priorityKeywords` table (keyed by lowercased label). -/
def priorityKeywords (labelLower : String) : List String :=
  if labelLower = "work" then
    ["work", "task", "project", "complete", "finish", "deliver", "code", "build", "create"]
  else if labelLower = "meetings" then
    ["meeting", "call", "sync", "discuss", "collaborate", "team", "standup", "review"]
  else if labelLower = "break" then
    ["break", "rest", "lunch", "pause", "recharge", "refresh", "relax"]
  else if labelLower = "planning" then
    ["plan", "organize", "review", "strategize", "prepare", "schedule", "prioritize"]
  else if labelLower = "other" then
    ["other", "misc", "admin", "email", "message", "chat"]
  else []

/-- The keyword test shared by the daily and weekly insights: does the
lowercased priority text contain any keyword of the (lowercased) dominant
label?  Out-of-table labels have no keywords, hence never match. -/
def priorityMatches (priorityText dominantLabel : String) : Bool :=
  (priorityKeywords (jsToLower dominantLabel)).any
    (fun kw => strContains (jsToLower priorityText) kw)

/-- JS `(c * 0.25).toFixed(1)`.  `c * 0.25` is exactly representable as a
double, and ECMAScript `toFixed` picks the integer `n` with `n / 10`
closest to the value, the larger `n` on ties — i.e. `⌊2.5 c + 0.5⌋`
tenths, which is `(10 c + 2) / 4` in Nat division. -/
def toFixed1 (c : Nat) : String :=
  let t : Nat := (10 * c + 2) / 4
  toString (t / 10) ++ "." ++ toString (t % 10)

/-- Stable descending insertion by hours: `entries.sort((a, b) => b[1] - a[1])`
(JS `Array.prototype.sort` is stable; equal hours keep their order). -/
def insertDesc (x : String × Nat) : List (String × Nat) → List (String × Nat)
  | [] => [x]
  | y :: ys => if x.2 > y.2 then x :: y :: ys else y :: insertDesc x ys

/-- Full stable descending sort by hours. -/
def sortDescByHours (l : List (String × Nat)) : List (String × Nat) :=
  l.foldr insertDesc []

/-- `generateDailyInsight` (`utils.js` lines 137–206), as a pure function of
the values it reads from storage: today's priority (`getTodayPriority`),
today's blocks (`getTodayBlocks`), and the label set (`getLabels`).
`!priority` is JS-falsy for both `null` and `""`. -/
def generateDailyInsight (priority : Option String) (blocks : List TimeBlock)
    (labels : List String) : Option String :=
  if optStrFalsy priority || blocks.length == 0 then none
  else
    let p := priority.getD ""
    let hours := labelCounts blocks labels
    let dominantLabel := reduceMaxKey hours
    if priorityMatches p dominantLabel then
      let sorted := (sortDescByHours hours).filter
        (fun e => e.1 != dominantLabel && lookupD hours e.1 0 > 0)
      match sorted with
      | (secondLabel, h) :: _ =>
          if h ≥ 4 then
            some ("You said \"" ++ p ++ "\" mattered most today, but spent "
              ++ toFixed1 h ++ " hours in " ++ jsToLower secondLabel ++ ".")
          else
            some ("You said \"" ++ p ++ "\" mattered most today. You spent "
              ++ toFixed1 (lookupD hours dominantLabel 0) ++ " hours in "
              ++ jsToLower dominantLabel ++ ".")
      | [] =>
          some ("You said \"" ++ p ++ "\" mattered most today. You spent "
            ++ toFixed1 (lookupD hours dominantLabel 0) ++ " hours in "
            ++ jsToLower dominantLabel ++ ".")
    else
      some ("You said \"" ++ p ++ "\" mattered most today, but spent "
        ++ toFixed1 (lookupD hours dominantLabel 0) ++ " hours in "
        ++ jsToLower dominantLabel ++ ".")

/-! ### Weekly insights (`generateWeeklyInsights` in `utils.js`)

The weekly routine also computes week-wide label hours that it never uses,
and picks a pseudo-random suggestion; neither affects the returned
`biggestMismatch` or streak values, so they are not modelled (the
suggestion is nondeterministic by design). -/

/-- The `biggestMismatch` record built inside `generateWeeklyInsights`
(`hours` in exact quarter-hour units, see above). -/
structure Mismatch where
  day : String
  priority : String
  actual : String
  hours : Nat
deriving DecidableEq, Repr

/-- One step of the `dayGroups` construction: push the block onto its day's
list, creating the day key at the end on first encounter (JS object
insertion order). -/
def addToGroup (g : List (String × List TimeBlock)) (k : String) (b : TimeBlock) :
    List (String × List TimeBlock) :=
  if g.any (fun p => p.1 == k) then
    g.map (fun p => if p.1 == k then (p.1, p.2 ++ [b]) else p)
  else g ++ [(k, [b])]

/-- `dayGroups`: blocks grouped by calendar day.  `dayKey` abstracts
`new Date(ms).toDateString()` (an injective-per-day calendar rendering the
claims never need to compute). -/
def dayGroups (blocks : List TimeBlock) (dayKey : Int → String) :
    List (String × List TimeBlock) :=
  blocks.foldl (fun g b => addToGroup g (dayKey b.start) b) []

/-- The per-day body of the `Object.keys(dayGroups).forEach` loop: skip days
without a (truthy) declared priority, recompute that day's label hours and
dominant label, apply the keyword test, and produce a `Mismatch` candidate
exactly when the test fails. -/
def dayMismatch (labels : List String) (prios : List (String × String))
    (g : String × List TimeBlock) : Option Mismatch :=
  -- the JS locals `dayPriority = dailyPriorities[day]`,
  -- `dayLabelHours` and `dominantLabel` are inlined
  if lookupD prios g.1 "" = "" then none
  else if priorityMatches (lookupD prios g.1 "")
      (reduceMaxKey (labelCounts g.2 labels)) then none
  else some { day := g.1, priority := lookupD prios g.1 "",
              actual := reduceMaxKey (labelCounts g.2 labels),
              hours := lookupD (labelCounts g.2 labels)
                (reduceMaxKey (labelCounts g.2 labels)) 0 }

/-- The ordered list of mismatch candidates the loop considers. -/
def mismatchEntries (blocks : List TimeBlock) (prios : List (String × String))
    (labels : List String) (dayKey : Int → String) : List Mismatch :=
  (dayGroups blocks dayKey).filterMap (dayMismatch labels prios)

/-- The `(biggestMismatch, maxMismatchHours)` update on one candidate:
replace only on strictly greater hours. -/
def bestStep (acc : Option Mismatch × Nat) (m : Mismatch) : Option Mismatch × Nat :=
  if m.hours > acc.2 then (some m, m.hours) else acc

/-- One day of the `forEach` loop over `dayGroups`: skip days without a
candidate, else apply the strictly-greater update. -/
def mismatchStep (labels : List String) (prios : List (String × String))
    (acc : Option Mismatch × Nat) (g : String × List TimeBlock) :
    Option Mismatch × Nat :=
  match dayMismatch labels prios g with
  | none => acc
  | some m => bestStep acc m

/-- `biggestMismatch` as computed by the loop: starting from
`(null, maxMismatchHours = 0)`, fold the per-day update over the day
groups in encounter order. -/
def weeklyBiggestMismatch (blocks : List TimeBlock) (prios : List (String × String))
    (labels : List String) (dayKey : Int → String) : Option Mismatch :=
  ((dayGroups blocks dayKey).foldl (mismatchStep labels prios) (none, 0)).1

/-- Specification-side selector: the first element of the list attaining
the maximum `hours` (head wins against an equal later best). -/
def firstAtMax : List Mismatch → Option Mismatch
  | [] => none
  | m :: rest =>
      match firstAtMax rest with
      | none => some m
      | some m2 => if m2.hours > m.hours then some m2 else some m

/-- The designated avoidance label: `'Break'` if present, else `'Other'` if
present, else the last label (`labels[labels.length - 1]`; `""` stands for
the JS `undefined` of an empty list). -/
def breakLabelOf (labels : List String) : String :=
  if labels.contains "Break" then "Break"
  else if labels.contains "Other" then "Other"
  else labels.getLastD ""

/-- Ascending stable insertion by `start`
(`blocks.sort((a, b) => new Date(a.start) - new Date(b.start))`). -/
def insertByStart (x : TimeBlock) : List TimeBlock → List TimeBlock
  | [] => [x]
  | y :: ys => if x.start < y.start then x :: y :: ys else y :: insertByStart x ys

/-- Stable sort of the week's blocks by start time. -/
def sortByStart (blocks : List TimeBlock) : List TimeBlock :=
  blocks.foldr insertByStart []

/-- The `sortedBlocks.forEach` streak loop: carry
`(currentStreak, longestStreak)`; a matching label extends the current run
and updates the maximum, any other label resets the current run. -/
def streakFold (breakLabel : String) (ls : List String) : Nat :=
  (ls.foldl
    (fun (acc : Nat × Nat) l =>
      if l == breakLabel then (acc.1 + 1, max acc.2 (acc.1 + 1))
      else (0, acc.2))
    (0, 0)).2

/-- `longestAvoidanceStreak` as returned by `generateWeeklyInsights`:
the streak count over start-sorted blocks, times 0.25 hours. -/
def longestAvoidanceStreak (blocks : List TimeBlock) (labels : List String) : ℚ :=
  (streakFold (breakLabelOf labels) ((sortByStart blocks).map (fun b => b.label)) : ℚ)
    * (1 / 4)

/-- Specification-side run length: the length of the longest run of
consecutive entries equal to `b`, i.e. the maximum over all suffixes of the
length of the initial all-`b` segment. -/
def longestConsecutiveRun (b : String) (ls : List String) : Nat :=
  (ls.tails.map (fun t => (t.takeWhile (fun l => l == b)).length)).foldr max 0

/-! ### Timer/interrupt engine (background service worker)

`Sys` carries the persisted fields the engine reads and writes
(`pendingBlock`, `timerStart`, `isRunning`), the single Chrome alarm
(`ALARM_NAME` is the only alarm name used, so it is one optional firing
time), and `now`, the time of the last applied event, used to state clock
monotonicity. -/

structure Sys where
  pendingBlock : Option PendingBlock
  timerStart : Option Int
  isRunning : Bool
  alarm : Option Int
  now : Int
deriving DecidableEq, Repr

/-- `triggerInterrupt`: store a pending block spanning
`[timerStart || Date.now(), Date.now())`.  (The notification and badge are
UI effects outside the model; the alarm field is untouched.) -/
def triggerInterrupt (s : Sys) (n : Int) : Sys :=
  { s with pendingBlock := some { start := jsOrInt s.timerStart n, endTime := n },
           now := n }

/-- `checkTimerState`: do nothing when not running, or when a pending block
is awaiting a label; else, with a truthy `timerStart`, fire the interrupt
immediately when 15 minutes have elapsed, otherwise schedule the alarm for
the remaining delta (`scheduleNextInterrupt` clears and recreates the one
named alarm). -/
def checkTimerState (s : Sys) (n : Int) : Sys :=
  if s.isRunning = false then { s with now := n }
  else if s.pendingBlock.isSome then { s with now := n }
  else if optIntTruthy s.timerStart then
    -- the JS locals `elapsed = Date.now() - timerStart` and
    -- `remaining = INTERRUPT_INTERVAL - elapsed` are inlined
    if n - s.timerStart.getD 0 ≥ INTERRUPT_INTERVAL then triggerInterrupt s n
    else { s with alarm := some (n + (INTERRUPT_INTERVAL - (n - s.timerStart.getD 0))),
                  now := n }
  else { s with now := n }

/-- The `startTimer` message handler: record the start, mark running,
schedule the interrupt 15 minutes out. -/
def startTimerOp (s : Sys) (n : Int) : Sys :=
  { s with timerStart := some n, isRunning := true,
           alarm := some (n + INTERRUPT_INTERVAL), now := n }

/-- The `stopTimer` message handler: clear the alarm, stop, null the start. -/
def stopTimerOp (s : Sys) (n : Int) : Sys :=
  { s with alarm := none, isRunning := false, timerStart := none, now := n }

/-- The `scheduleNextInterrupt` message handler (sent by the popup after a
label is submitted): only when still running, reset `timerStart` and
schedule the next interrupt. -/
def schedMsgOp (s : Sys) (n : Int) : Sys :=
  if s.isRunning then
    { s with timerStart := some n, alarm := some (n + INTERRUPT_INTERVAL), now := n }
  else { s with now := n }

/-- Clearing the pending block (the `clearPendingBlock` handler, and the
popup's write after a submit). -/
def clearPendingOp (s : Sys) (n : Int) : Sys :=
  { s with pendingBlock := none, now := n }

/-- The `chrome.alarms.onAlarm` listener: the (non-repeating) alarm is
consumed and `triggerInterrupt` runs. -/
def alarmFireOp (s : Sys) (n : Int) : Sys :=
  triggerInterrupt { s with alarm := none } n

/-- The events that write any of the modelled fields. -/
inductive Event
  | startTimer
  | stopTimer
  | schedMsg
  | clearPending
  | checkTimer
  | alarmFire
deriving DecidableEq, Repr

/-- Apply an event at time `n`. -/
def applyEvent : Event → Sys → Int → Sys
  | Event.startTimer, s, n => startTimerOp s n
  | Event.stopTimer, s, n => stopTimerOp s n
  | Event.schedMsg, s, n => schedMsgOp s n
  | Event.clearPending, s, n => clearPendingOp s n
  | Event.checkTimer, s, n => checkTimerState s n
  | Event.alarmFire, s, n => alarmFireOp s n

/-- One system step: any event at a non-decreasing time; the alarm can fire
only if it is actually scheduled and due. -/
inductive Step (s : Sys) : Sys → Prop
  | mk (e : Event) (n : Int) (hn : s.now ≤ n)
      (hfire : e = Event.alarmFire → ∃ t, s.alarm = some t ∧ t ≤ n) :
      Step s (applyEvent e s n)

/-- Fresh install: nothing persisted, timer stopped, no alarm. -/
def initSys (t0 : Int) : Sys :=
  { pendingBlock := none, timerStart := none, isRunning := false,
    alarm := none, now := t0 }

/-- States reachable from a fresh install. -/
inductive Reachable : Sys → Prop
  | base (t0 : Int) : Reachable (initSys t0)
  | step {s s' : Sys} : Reachable s → Step s s' → Reachable s'

/-! ### Claims C1, C2: label submission -/

/-- A starting state with one pending block and no recorded history, used
for the submission claims. -/
def submitS0 : Storage :=
  { timeBlocks := [], pendingBlock := some { start := 0, endTime := 900000 },
    dailyPriority := [], customLabels := none }

/-- Claim C1: the tagging-screen submit handler has no guard on the
PendingBlock already being cleared — it builds the TimeBlock from the
popup's captured `pendingBlock` variable.  Invoked twice in a row with the
same label and note (and no intervening interrupt), it appends a TimeBlock
both times: after the first invocation the stored PendingBlock is already
`null`, yet the second invocation still appends, leaving two (identical)
appended TimeBlocks instead of one. -/
theorem c1_double_submit_appends_two :
    (submitLabel { start := 0, endTime := 900000 } (some "Work") "" "Mon Oct 06 2025"
        submitS0).pendingBlock = none
    ∧ (submitLabel { start := 0, endTime := 900000 } (some "Work") "" "Mon Oct 06 2025"
        (submitLabel { start := 0, endTime := 900000 } (some "Work") "" "Mon Oct 06 2025"
          submitS0)).timeBlocks.length = 2 := by
  decide

/-- Claim C2 (counterexample): the append and the PendingBlock clear are
two separate durable writes.  The state after the first write
(`saveTimeBlock` inside the handler, `submitStep1` here) already has the
new TimeBlock appended while the PendingBlock is still present, and the
full handler is exactly that intermediate state with the PendingBlock then
cleared — so a reachable intermediate state with both exists. -/
theorem c2_intermediate_state_has_both :
    (submitStep1 { start := 0, endTime := 900000 } "Work" "" "Mon Oct 06 2025"
        submitS0).timeBlocks.length = 1
    ∧ (submitStep1 { start := 0, endTime := 900000 } "Work" "" "Mon Oct 06 2025"
        submitS0).pendingBlock = some { start := 0, endTime := 900000 }
    ∧ submitLabel { start := 0, endTime := 900000 } (some "Work") "" "Mon Oct 06 2025"
        submitS0
      = { submitStep1 { start := 0, endTime := 900000 } "Work" "" "Mon Oct 06 2025"
            submitS0 with pendingBlock := none } := by
  decide

/-- Claim C2 (amended): a completed label submission appends exactly one
TimeBlock (built from the pending block, the label, the trimmed note and
today's priority) and clears the PendingBlock — but over two consecutive
durable writes rather than atomically. -/
theorem c2_submit_net_effect (s : Storage) (memPB : PendingBlock)
    (label noteValue today : String)
    (hnote : noteValue.length ≤ NOTE_CHAR_LIMIT)
    (_hpb : s.pendingBlock = some memPB) :
    (submitLabel memPB (some label) noteValue today s).timeBlocks
      = s.timeBlocks ++
        [{ start := memPB.start, endTime := memPB.endTime, label := label,
           note := jsTrimOrNull noteValue, dailyPriority := getTodayPriority s today }]
    ∧ (submitLabel memPB (some label) noteValue today s).pendingBlock = none := by
  have h : ¬ noteValue.length > NOTE_CHAR_LIMIT := by omega
  simp [submitLabel, submitStep1, saveTimeBlock, h]

/-- Witness for C2's amended theorem at the concrete submission state. -/
theorem c2_submit_net_effect_witness :
    (submitLabel { start := 0, endTime := 900000 } (some "Work") "" "Mon Oct 06 2025"
        submitS0).timeBlocks
      = submitS0.timeBlocks ++
        [{ start := (0 : Int), endTime := (900000 : Int), label := "Work",
           note := jsTrimOrNull "",
           dailyPriority := getTodayPriority submitS0 "Mon Oct 06 2025" }]
    ∧ (submitLabel { start := 0, endTime := 900000 } (some "Work") "" "Mon Oct 06 2025"
        submitS0).pendingBlock = none :=
  c2_submit_net_effect submitS0 { start := 0, endTime := 900000 } "Work" ""
    "Mon Oct 06 2025" (by decide) (by decide)

/-! ### Claim C3: the daily-insight example -/

/-- Three blocks labeled Work and one labeled Meetings, recorded today. -/
def c3Blocks : List TimeBlock :=
  [{ start := 0, endTime := 900000, label := "Work", note := none, dailyPriority := none },
   { start := 900000, endTime := 1800000, label := "Work", note := none, dailyPriority := none },
   { start := 1800000, endTime := 2700000, label := "Work", note := none, dailyPriority := none },
   { start := 2700000, endTime := 3600000, label := "Meetings", note := none, dailyPriority := none }]

/-- Claim C3 (counterexample): the insight string is not the claimed one —
`toFixed(1)` renders 0.75 hours as `0.8`, so the literal
`"… You spent 0.75 hours in work."` is never produced. -/
theorem c3_counterexample :
    generateDailyInsight (some "Finish the client report") c3Blocks DEFAULT_LABELS
      ≠ some "You said \"Finish the client report\" mattered most today. You spent 0.75 hours in work." := by
  decide

/-- Claim C3 (amended): on the example the dominant label is Work, the
priority text matches it (keyword `finish`), the only other nonzero label
(Meetings, 0.25 h = 1 quarter) is below the 1.0-hour (= 4 quarter)
threshold, and the returned sentence reports the dominant hours rendered
with one decimal place: `0.8`, the `toFixed(1)` rendering of 0.75. -/
theorem c3_daily_insight_example :
    reduceMaxKey (labelCounts c3Blocks DEFAULT_LABELS) = "Work"
    ∧ priorityMatches "Finish the client report" "Work" = true
    ∧ lookupD (labelCounts c3Blocks DEFAULT_LABELS) "Meetings" 0 = 1
    ∧ toFixed1 3 = "0.8"
    ∧ generateDailyInsight (some "Finish the client report") c3Blocks DEFAULT_LABELS
        = some "You said \"Finish the client report\" mattered most today. You spent 0.8 hours in work." := by
  decide

/-! ### Claim C9: label edits never touch the time blocks -/

/-- Claim C9: renaming a label (`editLabel`, any validation outcome) and
deleting a label (`deleteLabel`, including the reset-to-defaults path)
write only the label list; the stored TimeBlock list — in particular every
stored block's `label` field — is unchanged. -/
theorem c9_label_ops_frame (s : Storage) (i : Nat) (newName : String) :
    (editLabelOp s i newName).timeBlocks = s.timeBlocks
    ∧ (deleteLabelOp s i).timeBlocks = s.timeBlocks
    ∧ (editLabelOp s i newName).timeBlocks.map TimeBlock.label
        = s.timeBlocks.map TimeBlock.label
    ∧ (deleteLabelOp s i).timeBlocks.map TimeBlock.label
        = s.timeBlocks.map TimeBlock.label := by
  refine ⟨?_, ?_, ?_, ?_⟩ <;>
    · simp only [editLabelOp, deleteLabelOp, saveLabels]
      repeat' split
      all_goals rfl

/-! ### Timer-machine facts (claims C4, C5, C10) -/

/-- `checkTimerState` never changes `isRunning`. -/
theorem checkTimerState_isRunning (s : Sys) (n : Int) :
    (checkTimerState s n).isRunning = s.isRunning := by
  unfold checkTimerState triggerInterrupt
  repeat' split
  all_goals rfl

/-- `checkTimerState` never changes `timerStart`. -/
theorem checkTimerState_timerStart (s : Sys) (n : Int) :
    (checkTimerState s n).timerStart = s.timerStart := by
  unfold checkTimerState triggerInterrupt
  repeat' split
  all_goals rfl

/-- `checkTimerState` records the time of the check. -/
theorem checkTimerState_now (s : Sys) (n : Int) :
    (checkTimerState s n).now = n := by
  unfold checkTimerState triggerInterrupt
  repeat' split
  all_goals rfl

/-- When the timer is stopped, `checkTimerState` only observes the clock. -/
theorem checkTimerState_stopped (s : Sys) (n : Int) (hr : s.isRunning = false) :
    checkTimerState s n = { s with now := n } := by
  unfold checkTimerState
  simp [hr]

/-- Every event applied at time `n` leaves the state's clock at `n`. -/
theorem applyEvent_now (e : Event) (s : Sys) (n : Int) :
    (applyEvent e s n).now = n := by
  cases e <;>
    · unfold applyEvent startTimerOp stopTimerOp schedMsgOp clearPendingOp
        checkTimerState alarmFireOp triggerInterrupt
      repeat' split
      all_goals rfl

/-- Safety invariant behind C5: a stopped reachable state has no scheduled
alarm (every transition that schedules is guarded on `isRunning`, and
`stopTimer` clears both together). -/
theorem reachable_stopped_no_alarm {s : Sys} (h : Reachable s)
    (hstop : s.isRunning = false) : s.alarm = none := by
  induction h with
  | base t0 => rfl
  | @step s1 s2 hr hstep ih =>
      cases hstep with
      | mk e n hn hfire =>
          cases e
          case startTimer => simp [applyEvent, startTimerOp] at hstop
          case stopTimer => simp [applyEvent, stopTimerOp]
          case schedMsg =>
              by_cases hb : s1.isRunning = true
              · simp [applyEvent, schedMsgOp, hb] at hstop
              · have hb' : s1.isRunning = false := by simpa using hb
                simp only [applyEvent, schedMsgOp, hb', if_false] at hstop ⊢
                exact ih hb'
          case clearPending =>
              simp only [applyEvent, clearPendingOp] at hstop ⊢
              exact ih hstop
          case checkTimer =>
              have hstop' : s1.isRunning = false := by
                simpa [applyEvent, checkTimerState_isRunning] using hstop
              simp only [applyEvent]
              rw [checkTimerState_stopped _ _ hstop']
              exact ih hstop'
          case alarmFire => simp [applyEvent, alarmFireOp, triggerInterrupt]

/-- Safety invariant behind C10: a persisted `timerStart` never lies in the
future — it is always at or before the time of the last applied event
(every write sets it to the write's own `now`, and the clock is
monotone). -/
theorem reachable_timerStart_le_now {s : Sys} (h : Reachable s) :
    ∀ v, s.timerStart = some v → v ≤ s.now := by
  induction h with
  | base t0 => intro v hv; cases hv
  | @step s1 s2 hr hstep ih =>
      cases hstep with
      | mk e n hn hfire =>
          intro v hv
          cases e
          case startTimer =>
              simp only [applyEvent, startTimerOp, Option.some.injEq] at hv
              simp [applyEvent, startTimerOp, ← hv]
          case stopTimer => simp [applyEvent, stopTimerOp] at hv
          case schedMsg =>
              by_cases hb : s1.isRunning = true
              · simp only [applyEvent, schedMsgOp, hb, if_true,
                  Option.some.injEq] at hv
                simp [applyEvent, schedMsgOp, hb, ← hv]
              · have hb' : s1.isRunning = false := by simpa using hb
                simp only [applyEvent, schedMsgOp, hb', if_false] at hv ⊢
                exact le_trans (ih v hv) hn
          case clearPending =>
              simp only [applyEvent, clearPendingOp] at hv ⊢
              exact le_trans (ih v hv) hn
          case checkTimer =>
              rw [applyEvent, checkTimerState_timerStart] at hv
              rw [applyEvent, checkTimerState_now]
              exact le_trans (ih v hv) hn
          case alarmFire =>
              simp only [applyEvent, alarmFireOp, triggerInterrupt] at hv ⊢
              exact le_trans (ih v hv) hn

/-- Claim C4: the state check run on process (re)start.  With the timer
running, no pending block, and a (truthy) persisted `timerStart = t`:
if at least 15 minutes have elapsed, the check immediately stores a
PendingBlock spanning `[t, now)` and schedules nothing (the alarm field is
untouched); if less than 15 minutes have elapsed, it stores no
PendingBlock and schedules the interrupt for the remaining delta. -/
theorem c4_restart_recovery (s : Sys) (n t : Int)
    (hrun : s.isRunning = true) (hpb : s.pendingBlock = none)
    (hts : s.timerStart = some t) (htruthy : t ≠ 0) :
    (INTERRUPT_INTERVAL ≤ n - t →
      (checkTimerState s n).pendingBlock = some { start := t, endTime := n }
      ∧ (checkTimerState s n).alarm = s.alarm)
    ∧ (n - t < INTERRUPT_INTERVAL →
      (checkTimerState s n).pendingBlock = none
      ∧ (checkTimerState s n).alarm = some (n + (INTERRUPT_INTERVAL - (n - t)))) := by
  have htr : optIntTruthy s.timerStart = true := by
    simp [optIntTruthy, hts, htruthy]
  constructor
  · intro hge
    simp [checkTimerState, hrun, hpb, hts, optIntTruthy, triggerInterrupt, jsOrInt,
      htruthy, hge]
  · intro hlt
    have hnot : ¬ INTERRUPT_INTERVAL ≤ n - t := by omega
    simp [checkTimerState, hrun, hpb, hts, optIntTruthy, htruthy, hnot]

/-- A concrete running state for the C4 witness: started 20 minutes before
the check. -/
def c4S : Sys :=
  { pendingBlock := none, timerStart := some 800000, isRunning := true,
    alarm := none, now := 800000 }

/-- Witness for C4 at `timerStart = now − 20 min` (immediate interrupt) and
at `timerStart = now − 200 s` (reschedule for the remaining delta). -/
theorem c4_restart_recovery_witness :
    ((checkTimerState c4S 2000000).pendingBlock
        = some { start := 800000, endTime := 2000000 }
      ∧ (checkTimerState c4S 2000000).alarm = c4S.alarm)
    ∧ ((checkTimerState c4S 1000000).pendingBlock = none
      ∧ (checkTimerState c4S 1000000).alarm = some 1700000) := by
  have h1 := (c4_restart_recovery c4S 2000000 800000 rfl rfl rfl (by decide)).1
    (by decide)
  have h2 := (c4_restart_recovery c4S 1000000 800000 rfl rfl rfl (by decide)).2
    (by decide)
  refine ⟨h1, h2.1, ?_⟩
  rw [h2.2]
  norm_num [INTERRUPT_INTERVAL]

/-- Claim C5: in every reachable state with `isRunning = false`, no
interrupt is scheduled (no alarm exists), the periodic/startup state check
leaves the pending block untouched, and no system step at all — in
particular neither the state check nor an alarm firing, which is not even
enabled — can create a PendingBlock where none exists. -/
theorem c5_stopped_no_interrupt (s : Sys) (hreach : Reachable s)
    (hstop : s.isRunning = false) :
    s.alarm = none
    ∧ (∀ n, (checkTimerState s n).pendingBlock = s.pendingBlock)
    ∧ (∀ s', Step s s' → s.pendingBlock = none → s'.pendingBlock = none) := by
  have halarm : s.alarm = none := reachable_stopped_no_alarm hreach hstop
  refine ⟨halarm, ?_, ?_⟩
  · intro n
    rw [checkTimerState_stopped _ _ hstop]
  · intro s' hstep hnone
    cases hstep with
    | mk e n hn hfire =>
        cases e
        case startTimer => simpa [applyEvent, startTimerOp] using hnone
        case stopTimer => simpa [applyEvent, stopTimerOp] using hnone
        case schedMsg =>
            by_cases hb : s.isRunning = true
            · simp [applyEvent, schedMsgOp, hb, hnone]
            · have hb' : s.isRunning = false := by simpa using hb
              simp [applyEvent, schedMsgOp, hb', hnone]
        case clearPending => simp [applyEvent, clearPendingOp]
        case checkTimer =>
            rw [applyEvent, checkTimerState_stopped _ _ hstop]
            simpa using hnone
        case alarmFire =>
            obtain ⟨t, ht, _⟩ := hfire rfl
            rw [halarm] at ht
            cases ht

/-- Witness for C5 at the freshly-installed (stopped) state. -/
theorem c5_stopped_no_interrupt_witness :
    (initSys 0).alarm = none
    ∧ (checkTimerState (initSys 0) 60000).pendingBlock = (initSys 0).pendingBlock
    ∧ (applyEvent Event.checkTimer (initSys 0) 60000).pendingBlock = none := by
  have h := c5_stopped_no_interrupt (initSys 0) (Reachable.base 0) rfl
  exact ⟨h.1, h.2.1 60000,
    h.2.2 _ (Step.mk Event.checkTimer 60000 (by decide)
      (fun hc => Event.noConfusion hc)) rfl⟩

/-- Claim C10: whenever the interrupt fires on a reachable state (at a time
at or after the state's last event), a missing persisted `timerStart`
yields the zero-length pending block `[now, now)`, and in every case the
created pending block satisfies `start ≤ end` (a persisted `timerStart` is
never in the future by `reachable_timerStart_le_now`). -/
theorem c10_trigger_interrupt_bounds (s : Sys) (n : Int)
    (hreach : Reachable s) (hn : s.now ≤ n) :
    (s.timerStart = none →
      (triggerInterrupt s n).pendingBlock = some { start := n, endTime := n })
    ∧ (∀ p, (triggerInterrupt s n).pendingBlock = some p → p.start ≤ p.endTime) := by
  constructor
  · intro hts
    simp [triggerInterrupt, jsOrInt, hts]
  · intro p hp
    simp only [triggerInterrupt, Option.some.injEq] at hp
    rw [← hp]
    show jsOrInt s.timerStart n ≤ n
    cases hts : s.timerStart with
    | none => simp [jsOrInt]
    | some v =>
        by_cases hv : v = 0
        · simp [jsOrInt, hv]
        · have := reachable_timerStart_le_now hreach v hts
          simp only [jsOrInt, hv, if_false]
          omega

/-- Witness for C10 at the fresh state (no `timerStart` persisted). -/
theorem c10_trigger_interrupt_bounds_witness :
    (triggerInterrupt (initSys 0) 5).pendingBlock = some { start := 5, endTime := 5 }
    ∧ ((5 : Int) ≤ (5 : Int)) := by
  have h := c10_trigger_interrupt_bounds (initSys 0) 5 (Reachable.base 0) (by decide)
  exact ⟨h.1 rfl, h.2 { start := 5, endTime := 5 } (h.1 rfl) ⟩

/-! ### Claim C7: the daily insight is null exactly when data is missing -/

/-- Claim C7: `generateDailyInsight` returns `null` if and only if no
priority is declared for today (JS-falsy: absent or empty) or no blocks
are recorded today; with a declared priority and at least one block every
branch of the function returns a sentence. -/
theorem c7_daily_insight_none_iff (priority : Option String)
    (blocks : List TimeBlock) (labels : List String) :
    generateDailyInsight priority blocks labels = none
      ↔ (optStrFalsy priority = true ∨ blocks = []) := by
  unfold generateDailyInsight
  by_cases hg : (optStrFalsy priority || blocks.length == 0) = true
  · have hor : optStrFalsy priority = true ∨ blocks = [] := by
      simpa [List.length_eq_zero] using hg
    simp [hg, hor]
  · have hg2 := hg
    simp only [Bool.or_eq_true, beq_iff_eq, List.length_eq_zero, not_or] at hg2
    rw [if_neg hg]
    constructor
    · intro hnone
      by_cases hm : priorityMatches (priority.getD "")
          (reduceMaxKey (labelCounts blocks labels)) = true
      · rw [if_pos hm] at hnone
        rcases hfs : List.filter
            (fun e => e.1 != reduceMaxKey (labelCounts blocks labels)
              && decide (0 < lookupD (labelCounts blocks labels) e.1 0))
            (sortDescByHours (labelCounts blocks labels)) with _ | ⟨⟨sl, hq⟩, tl⟩
        · rw [hfs] at hnone
          simp at hnone
        · rw [hfs] at hnone
          by_cases h4 : 4 ≤ hq
          · simp [h4] at hnone
          · simp [h4] at hnone
      · rw [if_neg hm] at hnone
        simp at hnone
    · intro hor
      rcases hor with h | h
      · exact absurd h hg2.1
      · exact absurd h hg2.2

/-! ### Claim C6: the weekly avoidance streak -/

/-- Length of the initial run of `b`-labeled entries. -/
def initRun (b : String) (ls : List String) : Nat :=
  (ls.takeWhile (fun l => l == b)).length

theorem longestConsecutiveRun_nil (b : String) :
    longestConsecutiveRun b [] = 0 := rfl

theorem longestConsecutiveRun_cons (b : String) (l : String) (ls : List String) :
    longestConsecutiveRun b (l :: ls)
      = max (initRun b (l :: ls)) (longestConsecutiveRun b ls) := by
  simp [longestConsecutiveRun, initRun, List.tails]

theorem initRun_le_longestConsecutiveRun (b : String) (ls : List String) :
    initRun b ls ≤ longestConsecutiveRun b ls := by
  cases ls with
  | nil => simp [initRun, longestConsecutiveRun_nil]
  | cons l ls => rw [longestConsecutiveRun_cons]; exact le_max_left _ _

/-- The streak fold, started from a current run `c` already recorded in the
best-so-far `m`, computes the best of `m`, the run continuing `c`, and the
longest run inside the rest. -/
theorem streak_aux (b : String) (ls : List String) :
    ∀ c m : Nat, c ≤ m →
      (ls.foldl
        (fun (acc : Nat × Nat) l =>
          if l == b then (acc.1 + 1, max acc.2 (acc.1 + 1)) else (0, acc.2))
        (c, m)).2
      = max m (max (c + initRun b ls) (longestConsecutiveRun b ls)) := by
  induction ls with
  | nil =>
      intro c m hcm
      simp [initRun, longestConsecutiveRun_nil]
      omega
  | cons l ls ih =>
      intro c m hcm
      by_cases hl : l == b
      · have h1 : initRun b (l :: ls) = 1 + initRun b ls := by
          simp [initRun, List.takeWhile_cons, hl]
          omega
        have hstep : (if l == b then ((c, m).1 + 1, max (c, m).2 ((c, m).1 + 1))
            else (0, (c, m).2)) = (c + 1, max m (c + 1)) := by simp [hl]
        rw [List.foldl_cons, hstep, ih (c + 1) (max m (c + 1)) (le_max_right _ _),
          longestConsecutiveRun_cons, h1]
        omega
      · have h0 : initRun b (l :: ls) = 0 := by
          simp [initRun, List.takeWhile_cons, hl]
        have hle := initRun_le_longestConsecutiveRun b ls
        have hstep : (if l == b then ((c, m).1 + 1, max (c, m).2 ((c, m).1 + 1))
            else (0, (c, m).2)) = (0, m) := by simp [hl]
        rw [List.foldl_cons, hstep, ih 0 m (Nat.zero_le m),
          longestConsecutiveRun_cons, h0]
        omega

/-- The JS streak loop computes exactly the longest consecutive run. -/
theorem streakFold_eq_run (b : String) (ls : List String) :
    streakFold b ls = longestConsecutiveRun b ls := by
  have h := streak_aux b ls 0 0 (Nat.le_refl 0)
  have hle := initRun_le_longestConsecutiveRun b ls
  unfold streakFold
  rw [h]
  omega

/-- Claim C6: the weekly avoidance streak equals 0.25 hours per block in
the longest run of consecutive blocks — in start-sorted order — labeled
with the designated avoidance label, which is `Break` if present in the
label set, else `Other` if present, else the last label. -/
theorem c6_avoidance_streak (blocks : List TimeBlock) (labels : List String) :
    longestAvoidanceStreak blocks labels
      = quartersToHours (longestConsecutiveRun (breakLabelOf labels)
          ((sortByStart blocks).map (fun b => b.label)))
    ∧ (labels.contains "Break" = true → breakLabelOf labels = "Break")
    ∧ (labels.contains "Break" = false → labels.contains "Other" = true →
        breakLabelOf labels = "Other")
    ∧ (labels.contains "Break" = false → labels.contains "Other" = false →
        breakLabelOf labels = labels.getLastD "") := by
  refine ⟨?_, ?_, ?_, ?_⟩
  · unfold longestAvoidanceStreak quartersToHours
    rw [streakFold_eq_run]
  · intro h
    have hm : "Break" ∈ labels := by simpa using h
    simp [breakLabelOf, hm]
  · intro h1 h2
    have hm1 : "Break" ∉ labels := by simpa using h1
    have hm2 : "Other" ∈ labels := by simpa using h2
    simp [breakLabelOf, hm1, hm2]
  · intro h1 h2
    have hm1 : "Break" ∉ labels := by simpa using h1
    have hm2 : "Other" ∉ labels := by simpa using h2
    simp [breakLabelOf, hm1, hm2, List.getLastD_eq_getLast?]

/-- The weekly-streak example blocks: start-sorted labels
Break, Break, Work, Break, Break, Break. -/
def c6Blocks : List TimeBlock :=
  [{ start := 0, endTime := 900000, label := "Break", note := none, dailyPriority := none },
   { start := 900000, endTime := 1800000, label := "Break", note := none, dailyPriority := none },
   { start := 1800000, endTime := 2700000, label := "Work", note := none, dailyPriority := none },
   { start := 2700000, endTime := 3600000, label := "Break", note := none, dailyPriority := none },
   { start := 3600000, endTime := 4500000, label := "Break", note := none, dailyPriority := none },
   { start := 4500000, endTime := 5400000, label := "Break", note := none, dailyPriority := none }]

/-- Witness for C6 on the spec's example: under the default labels the
avoidance label is `Break`, and the streak is 3 blocks = 0.75 hours. -/
theorem c6_avoidance_streak_witness :
    breakLabelOf DEFAULT_LABELS = "Break"
    ∧ longestAvoidanceStreak c6Blocks DEFAULT_LABELS
        = quartersToHours (longestConsecutiveRun (breakLabelOf DEFAULT_LABELS)
            ((sortByStart c6Blocks).map (fun b => b.label)))
    ∧ longestAvoidanceStreak c6Blocks DEFAULT_LABELS = 3 / 4 := by
  have h := c6_avoidance_streak c6Blocks DEFAULT_LABELS
  have hb : breakLabelOf DEFAULT_LABELS = "Break" := h.2.1 (by decide)
  have hrun : longestConsecutiveRun "Break"
      ((sortByStart c6Blocks).map (fun b => b.label)) = 3 := by decide
  refine ⟨hb, h.1, ?_⟩
  rw [h.1, hb, hrun]
  norm_num [quartersToHours]

/-! ### Claim C8: the weekly biggest mismatch

Supporting lemmas: the count map gives every block's label a positive
count, the `reduce`-style maximum really is a maximum, and the
strictly-greater fold keeps the first entry attaining the maximum. -/

theorem lookupD_zero_of_no_key (m : List (String × Nat)) (k : String)
    (h : m.any (fun p => p.1 == k) = false) : lookupD m k 0 = 0 := by
  unfold lookupD
  have hfind : m.find? (fun p => p.1 == k) = none := by
    rw [List.find?_eq_none]
    intro x hx hpx
    have : m.any (fun p => p.1 == k) = true := List.any_eq_true.mpr ⟨x, hx, hpx⟩
    rw [this] at h
    cases h
  rw [hfind]

theorem lookupD_pos_any (m : List (String × Nat)) (k : String)
    (h : 1 ≤ lookupD m k 0) : m.any (fun p => p.1 == k) = true := by
  by_contra hc
  have hc' : m.any (fun p => p.1 == k) = false := by
    cases hval : m.any (fun p => p.1 == k)
    · rfl
    · exact absurd hval hc
  rw [lookupD_zero_of_no_key m k hc'] at h
  omega

theorem lookupD_cons_pos {α : Type} (hd : String × α) (tl : List (String × α))
    (k : String) (d : α) (h : (hd.1 == k) = true) :
    lookupD (hd :: tl) k d = hd.2 := by
  unfold lookupD
  rw [List.find?_cons]
  simp [h]

theorem lookupD_cons_neg {α : Type} (hd : String × α) (tl : List (String × α))
    (k : String) (d : α) (h : (hd.1 == k) = false) :
    lookupD (hd :: tl) k d = lookupD tl k d := by
  unfold lookupD
  rw [List.find?_cons]
  simp [h]

theorem lookupD_append_single_other {α : Type} (m : List (String × α))
    (k k' : String) (v : α) (d : α) (hne : k' ≠ k) :
    lookupD (m ++ [(k, v)]) k' d = lookupD m k' d := by
  unfold lookupD
  rw [List.find?_append]
  have hs : List.find? (fun p => p.1 == k') [(k, v)] = none := by
    rw [List.find?_cons]
    have hkk : (k == k') = false := beq_eq_false_iff_ne.mpr (fun h => hne h.symm)
    simp [hkk]
  rw [hs]
  cases List.find? (fun p => p.1 == k') m <;> rfl

theorem mapinc_lookup_self (m : List (String × Nat)) (k : String)
    (h : m.any (fun p => p.1 == k) = true) :
    lookupD (m.map (fun p => if p.1 == k then (p.1, p.2 + 1) else p)) k 0
      = lookupD m k 0 + 1 := by
  induction m with
  | nil => cases h
  | cons hd tl ih =>
      by_cases hk : (hd.1 == k) = true
      · rw [List.map_cons, if_pos hk,
          lookupD_cons_pos (hd.1, hd.2 + 1) _ _ _ hk,
          lookupD_cons_pos hd tl _ _ hk]
      · have hkb : (hd.1 == k) = false := by
          cases hval : hd.1 == k
          · rfl
          · exact absurd hval hk
        have h' : tl.any (fun p => p.1 == k) = true := by
          simpa [List.any_cons, hkb] using h
        rw [List.map_cons, if_neg hk, lookupD_cons_neg _ _ _ _ hkb,
          lookupD_cons_neg _ _ _ _ hkb]
        exact ih h'

theorem mapinc_lookup_other (m : List (String × Nat)) (k k' : String)
    (hne : k' ≠ k) :
    lookupD (m.map (fun p => if p.1 == k then (p.1, p.2 + 1) else p)) k' 0
      = lookupD m k' 0 := by
  induction m with
  | nil => rfl
  | cons hd tl ih =>
      by_cases hk : (hd.1 == k) = true
      · have heq : hd.1 = k := by simpa using hk
        have hk' : (hd.1 == k') = false := by
          rw [heq]
          exact beq_eq_false_iff_ne.mpr (fun h => hne h.symm)
        rw [List.map_cons, if_pos hk,
          lookupD_cons_neg (hd.1, hd.2 + 1) _ _ _ hk',
          lookupD_cons_neg hd tl _ _ hk']
        exact ih
      · by_cases hk2 : (hd.1 == k') = true
        · rw [List.map_cons, if_neg hk, lookupD_cons_pos _ _ _ _ hk2,
            lookupD_cons_pos _ _ _ _ hk2]
        · have hk2b : (hd.1 == k') = false := by
            cases hval : hd.1 == k'
            · rfl
            · exact absurd hval hk2
          rw [List.map_cons, if_neg hk, lookupD_cons_neg _ _ _ _ hk2b,
            lookupD_cons_neg _ _ _ _ hk2b]
          exact ih

theorem bump_lookup_self (m : List (String × Nat)) (k : String) :
    lookupD (bump m k) k 0 = lookupD m k 0 + 1 := by
  unfold bump
  by_cases hany : m.any (fun p => p.1 == k) = true
  · rw [if_pos hany]
    exact mapinc_lookup_self m k hany
  · have hany' : m.any (fun p => p.1 == k) = false := by
      cases hval : m.any (fun p => p.1 == k)
      · rfl
      · exact absurd hval hany
    rw [if_neg hany, lookupD_zero_of_no_key m k hany']
    unfold lookupD
    rw [List.find?_append]
    have hnone : m.find? (fun p => p.1 == k) = none := by
      rw [List.find?_eq_none]
      intro x hx hpx
      have hx2 : m.any (fun p => p.1 == k) = true := List.any_eq_true.mpr ⟨x, hx, hpx⟩
      rw [hx2] at hany'
      cases hany'
    rw [hnone, List.find?_cons]
    simp

theorem bump_lookup_other (m : List (String × Nat)) (k k' : String)
    (hne : k' ≠ k) : lookupD (bump m k) k' 0 = lookupD m k' 0 := by
  unfold bump
  by_cases hany : m.any (fun p => p.1 == k) = true
  · rw [if_pos hany]
    exact mapinc_lookup_other m k k' hne
  · rw [if_neg hany]
    exact lookupD_append_single_other m k k' 1 0 hne

theorem bump_lookup_le (m : List (String × Nat)) (k k' : String) :
    lookupD m k' 0 ≤ lookupD (bump m k) k' 0 := by
  by_cases hk : k' = k
  · rw [hk, bump_lookup_self]; omega
  · rw [bump_lookup_other m k k' hk]

theorem foldBump_lookup_le (blocks : List TimeBlock) :
    ∀ (init : List (String × Nat)) (k : String),
      lookupD init k 0
        ≤ lookupD (blocks.foldl (fun m b => bump m b.label) init) k 0 := by
  induction blocks with
  | nil => intro init k; exact Nat.le_refl _
  | cons b blocks ih =>
      intro init k
      rw [List.foldl_cons]
      exact le_trans (bump_lookup_le init b.label k) (ih (bump init b.label) k)

theorem foldBump_mem_pos (blocks : List TimeBlock) :
    ∀ (init : List (String × Nat)) (b : TimeBlock), b ∈ blocks →
      1 ≤ lookupD (blocks.foldl (fun m b => bump m b.label) init) b.label 0 := by
  induction blocks with
  | nil => intro init b hb; cases hb
  | cons hd tl ih =>
      intro init b hb
      rw [List.foldl_cons]
      rcases List.mem_cons.mp hb with hbe | hbtl
      · have h1 : 1 ≤ lookupD (bump init hd.label) hd.label 0 := by
          rw [bump_lookup_self]; omega
        have h2 := foldBump_lookup_le tl (bump init hd.label) hd.label
        rw [hbe]
        exact le_trans h1 h2
      · exact ih (bump init hd.label) b hbtl

theorem counts_pos (blocks : List TimeBlock) (labels : List String)
    (b : TimeBlock) (hb : b ∈ blocks) :
    1 ≤ lookupD (labelCounts blocks labels) b.label 0 :=
  foldBump_mem_pos blocks (labels.map (fun l => (l, 0))) b hb

/-- A `(a, b) => f a > f b ? a : b` fold never drops below its seed. -/
theorem foldPick_ge_init (f : String → Nat) (l : List String) :
    ∀ a : String,
      f a ≤ f (l.foldl (fun x y => if f x > f y then x else y) a) := by
  induction l with
  | nil => intro a; exact Nat.le_refl _
  | cons b l ih =>
      intro a
      rw [List.foldl_cons]
      by_cases hab : f a > f b
      · rw [if_pos hab]; exact ih a
      · rw [if_neg hab]
        exact le_trans (Nat.le_of_not_lt hab) (ih b)

/-- The same fold dominates every list element. -/
theorem foldPick_ge_mem (f : String → Nat) (l : List String) :
    ∀ (a x : String), x ∈ l →
      f x ≤ f (l.foldl (fun x y => if f x > f y then x else y) a) := by
  induction l with
  | nil => intro a x hx; cases hx
  | cons b l ih =>
      intro a x hx
      rw [List.foldl_cons]
      rcases List.mem_cons.mp hx with hxb | hxl
      · by_cases hab : f a > f b
        · rw [if_pos hab, hxb]
          exact le_trans (Nat.le_of_lt hab) (foldPick_ge_init f l a)
        · rw [if_neg hab, hxb]
          exact foldPick_ge_init f l b
      · by_cases hab : f a > f b
        · rw [if_pos hab]; exact ih a x hxl
        · rw [if_neg hab]; exact ih b x hxl

/-- The JS `reduce`-computed dominant label really is a maximizer: its
hours dominate the hours of every present key. -/
theorem reduceMaxKey_ge (m : List (String × Nat)) (k : String)
    (h : m.any (fun p => p.1 == k) = true) :
    lookupD m k 0 ≤ lookupD m (reduceMaxKey m) 0 := by
  have hk : k ∈ m.map (fun p => p.1) := by
    rcases List.any_eq_true.mp h with ⟨p, hp, hpk⟩
    exact List.mem_map.mpr ⟨p, hp, eq_of_beq hpk⟩
  unfold reduceMaxKey
  rcases hm : m.map (fun p => p.1) with _ | ⟨k0, ks⟩
  · rw [hm] at hk; cases hk
  · rw [hm] at hk
    rw [hm]
    rcases List.mem_cons.mp hk with hk0 | hks
    · rw [hk0]
      exact foldPick_ge_init (fun a => lookupD m a 0) ks k0
    · exact foldPick_ge_mem (fun a => lookupD m a 0) ks k0 k hks

/-- Every group produced by `dayGroups` holds at least one block. -/
theorem dayGroups_nonempty (blocks : List TimeBlock) (dayKey : Int → String) :
    ∀ p ∈ dayGroups blocks dayKey, p.2 ≠ [] := by
  have general : ∀ (bs : List TimeBlock) (g0 : List (String × List TimeBlock)),
      (∀ p ∈ g0, p.2 ≠ []) →
      ∀ p ∈ bs.foldl (fun g b => addToGroup g (dayKey b.start) b) g0, p.2 ≠ [] := by
    intro bs
    induction bs with
    | nil => intro g0 hg0 p hp; exact hg0 p hp
    | cons b bs ih =>
        intro g0 hg0 p hp
        rw [List.foldl_cons] at hp
        refine ih (addToGroup g0 (dayKey b.start) b) ?_ p hp
        intro q hq
        unfold addToGroup at hq
        by_cases hany : g0.any (fun p => p.1 == dayKey b.start) = true
        · rw [if_pos hany] at hq
          rcases List.mem_map.mp hq with ⟨r, hr, hrq⟩
          by_cases hrk : (r.1 == dayKey b.start) = true
          · rw [if_pos hrk] at hrq
            rw [← hrq]
            simp
          · rw [if_neg hrk] at hrq
            rw [← hrq]
            exact hg0 r hr
        · rw [if_neg hany] at hq
          rcases List.mem_append.mp hq with hqg | hqs
          · exact hg0 q hqg
          · rcases List.mem_singleton.mp hqs with rfl
            simp
  exact general blocks [] (by intro p hp; cases hp)

/-- A mismatch candidate always carries strictly positive hours: its day
group is nonempty, so the dominant label's count is at least one. -/
theorem dayMismatch_pos (labels : List String) (prios : List (String × String))
    (g : String × List TimeBlock) (hg : g.2 ≠ []) (m : Mismatch)
    (h : dayMismatch labels prios g = some m) : 0 < m.hours := by
  unfold dayMismatch at h
  by_cases h1 : lookupD prios g.1 "" = ""
  · rw [if_pos h1] at h; cases h
  · rw [if_neg h1] at h
    by_cases h2 : priorityMatches (lookupD prios g.1 "")
        (reduceMaxKey (labelCounts g.2 labels)) = true
    · rw [if_pos h2] at h; cases h
    · rw [if_neg h2] at h
      have hm2 : m.hours = lookupD (labelCounts g.2 labels)
          (reduceMaxKey (labelCounts g.2 labels)) 0 := by
        rw [← Option.some.inj h]
      rcases hb : g.2 with _ | ⟨b, bs⟩
      · exact absurd hb hg
      · have hbmem : b ∈ g.2 := by rw [hb]; exact List.mem_cons_self b bs
        have hpos := counts_pos g.2 labels b hbmem
        have hany := lookupD_pos_any (labelCounts g.2 labels) b.label hpos
        have hge := reduceMaxKey_ge (labelCounts g.2 labels) b.label hany
        rw [hm2]
        omega

/-- Folding the per-day update over the groups while skipping `none`
candidates is folding `bestStep` over the candidate list. -/
theorem foldl_mismatchStep (labels : List String)
    (prios : List (String × String)) :
    ∀ (gs : List (String × List TimeBlock)) (init : Option Mismatch × Nat),
      gs.foldl (mismatchStep labels prios) init
        = (gs.filterMap (dayMismatch labels prios)).foldl bestStep init := by
  intro gs
  induction gs with
  | nil => intro init; rfl
  | cons g gs ih =>
      intro init
      rw [List.foldl_cons, List.filterMap_cons]
      cases hg : dayMismatch labels prios g with
      | none =>
          have hstep : mismatchStep labels prios init g = init := by
            unfold mismatchStep
            rw [hg]
          rw [hstep]
          exact ih init
      | some m =>
          have hstep : mismatchStep labels prios init g = bestStep init m := by
            unfold mismatchStep
            rw [hg]
          rw [hstep]
          exact ih (bestStep init m)

/-- The strictly-greater fold, seeded with a candidate `m0` whose hours are
already the recorded maximum, selects `m0` unless the rest holds a
strictly better first-at-maximum element. -/
theorem foldBest_aux (l : List Mismatch) :
    ∀ m0 : Mismatch,
      (l.foldl bestStep (some m0, m0.hours)).1
      = some (match firstAtMax l with
              | none => m0
              | some m2 => if m2.hours > m0.hours then m2 else m0) := by
  induction l with
  | nil => intro m0; simp [firstAtMax]
  | cons m l ih =>
      intro m0
      rw [List.foldl_cons]
      by_cases hm : m.hours > m0.hours
      · have hstep : bestStep (some m0, m0.hours) m = (some m, m.hours) := by
          simp [bestStep, hm]
        rw [hstep, ih m]
        rcases hfl : firstAtMax l with _ | m2
        · simp [firstAtMax, hfl, hm]
        · by_cases hm2 : m2.hours > m.hours
          · have hm2' : m2.hours > m0.hours := lt_trans hm hm2
            simp [firstAtMax, hfl, hm, hm2, hm2']
          · simp [firstAtMax, hfl, hm, hm2]
      · have hstep : bestStep (some m0, m0.hours) m = (some m0, m0.hours) := by
          simp [bestStep, hm]
        rw [hstep, ih m0]
        rcases hfl : firstAtMax l with _ | m2
        · simp [firstAtMax, hfl, hm]
        · by_cases hm2 : m2.hours > m.hours
          · simp [firstAtMax, hfl, hm, hm2]
          · have hle : m2.hours ≤ m0.hours :=
              le_trans (Nat.le_of_not_lt hm2) (Nat.le_of_not_lt hm)
            have hm2' : ¬ m2.hours > m0.hours := Nat.not_lt.mpr hle
            simp [firstAtMax, hfl, hm, hm2, hm2']

/-- On a list of positive-hours candidates, the JS fold (starting from
`(null, 0)`) returns exactly the first element attaining the maximum. -/
theorem foldBest_eq_firstAtMax (l : List Mismatch)
    (hpos : ∀ m ∈ l, 0 < m.hours) :
    (l.foldl bestStep ((none : Option Mismatch), 0)).1 = firstAtMax l := by
  cases l with
  | nil => rfl
  | cons m l =>
      rw [List.foldl_cons]
      have h0 : m.hours > 0 := hpos m (List.mem_cons_self m l)
      have hstep : bestStep ((none : Option Mismatch), 0) m = (some m, m.hours) := by
        simp [bestStep, h0]
      rw [hstep, foldBest_aux l m]
      rcases hfl : firstAtMax l with _ | m2
      · simp [firstAtMax, hfl]
      · by_cases hm2 : m2.hours > m.hours
        · simp [firstAtMax, hfl, hm2]
        · simp [firstAtMax, hfl, hm2]

/-- `firstAtMax` finds something exactly on nonempty lists. -/
theorem firstAtMax_none_iff (l : List Mismatch) :
    firstAtMax l = none ↔ l = [] := by
  cases l with
  | nil => simp [firstAtMax]
  | cons m l =>
      simp only [firstAtMax]
      rcases hfl : firstAtMax l with _ | m2
      · simp
      · have hred : (match (some m2 : Option Mismatch) with
            | none => some m
            | some m2 => if m2.hours > m.hours then some m2 else some m)
            = (if m2.hours > m.hours then some m2 else some m) := rfl
        rw [hred]
        split <;> simp

/-- The element selected by `firstAtMax` attains the maximum hours, and
everything strictly before it in the list has strictly smaller hours (so
the first of several tied maxima wins). -/
theorem firstAtMax_split (l : List Mismatch) :
    ∀ m, firstAtMax l = some m →
      (∃ pre post, l = pre ++ m :: post ∧ ∀ x ∈ pre, x.hours < m.hours)
      ∧ ∀ x ∈ l, x.hours ≤ m.hours := by
  induction l with
  | nil => intro m h; cases h
  | cons hd l ih =>
      intro m h
      simp only [firstAtMax] at h
      rcases hfl : firstAtMax l with _ | m2
      · rw [hfl] at h
        have h' : some hd = some m := h
        have hm : m = hd := (Option.some.inj h').symm
        have hl : l = [] := (firstAtMax_none_iff l).mp hfl
        subst hm
        subst hl
        refine ⟨⟨[], [], rfl, by intro x hx; cases hx⟩, ?_⟩
        intro x hx
        rcases List.mem_cons.mp hx with rfl | hx2
        · exact Nat.le_refl _
        · cases hx2
      · rw [hfl] at h
        have h' : (if m2.hours > hd.hours then some m2 else some hd) = some m := h
        by_cases hgt : m2.hours > hd.hours
        · rw [if_pos hgt] at h'
          have hm : m = m2 := (Option.some.inj h').symm
          subst hm
          obtain ⟨⟨pre2, post2, hsplit, hpre⟩, hall⟩ := ih m hfl
          refine ⟨⟨hd :: pre2, post2, by rw [hsplit]; rfl, ?_⟩, ?_⟩
          · intro x hx
            rcases List.mem_cons.mp hx with rfl | hx2
            · exact hgt
            · exact hpre x hx2
          · intro x hx
            rcases List.mem_cons.mp hx with rfl | hx2
            · exact Nat.le_of_lt hgt
            · exact hall x hx2
        · rw [if_neg hgt] at h'
          have hm : m = hd := (Option.some.inj h').symm
          subst hm
          obtain ⟨_, hall⟩ := ih m2 hfl
          refine ⟨⟨[], l, rfl, by intro x hx; cases hx⟩, ?_⟩
          intro x hx
          rcases List.mem_cons.mp hx with rfl | hx2
          · exact Nat.le_refl _
          · exact le_trans (hall x hx2) (Nat.le_of_not_lt hgt)

/-- Everything `mismatchEntries` produces: a day with a declared (truthy)
priority whose dominant-label keyword test failed, with positive hours. -/
theorem mismatchEntries_spec (blocks : List TimeBlock)
    (prios : List (String × String)) (labels : List String)
    (dayKey : Int → String) :
    ∀ m ∈ mismatchEntries blocks prios labels dayKey,
      priorityMatches m.priority m.actual = false
      ∧ m.priority = lookupD prios m.day ""
      ∧ m.priority ≠ ""
      ∧ 0 < m.hours := by
  intro m hm
  rcases List.mem_filterMap.mp hm with ⟨g, hg, hgm⟩
  have hpos : 0 < m.hours :=
    dayMismatch_pos labels prios g (dayGroups_nonempty blocks dayKey g hg) m hgm
  unfold dayMismatch at hgm
  by_cases h1 : lookupD prios g.1 "" = ""
  · rw [if_pos h1] at hgm; cases hgm
  · rw [if_neg h1] at hgm
    by_cases h2 : priorityMatches (lookupD prios g.1 "")
        (reduceMaxKey (labelCounts g.2 labels)) = true
    · rw [if_pos h2] at hgm; cases hgm
    · rw [if_neg h2] at hgm
      have hrec := Option.some.inj hgm
      rw [← hrec] at hpos ⊢
      refine ⟨?_, rfl, h1, hpos⟩
      cases hval : priorityMatches (lookupD prios g.1 "")
          (reduceMaxKey (labelCounts g.2 labels))
      · rfl
      · exact absurd hval h2

/-- Claim C8: the weekly biggest mismatch equals the first entry attaining
the maximum hours among the per-day mismatch candidates (built by grouping
the week's blocks by day and applying the dominant-label keyword test to
each day with a declared priority): it is `null` exactly when no day
mismatches; any returned day failed the keyword test; every candidate
before it has strictly smaller hours (first encountered wins ties) and no
candidate anywhere has larger hours. -/
theorem c8_biggest_mismatch (blocks : List TimeBlock)
    (prios : List (String × String)) (labels : List String)
    (dayKey : Int → String) :
    weeklyBiggestMismatch blocks prios labels dayKey
      = firstAtMax (mismatchEntries blocks prios labels dayKey)
    ∧ (weeklyBiggestMismatch blocks prios labels dayKey = none
        ↔ mismatchEntries blocks prios labels dayKey = [])
    ∧ (∀ m, weeklyBiggestMismatch blocks prios labels dayKey = some m →
        priorityMatches m.priority m.actual = false
        ∧ (∃ pre post, mismatchEntries blocks prios labels dayKey
              = pre ++ m :: post ∧ ∀ x ∈ pre, x.hours < m.hours)
        ∧ ∀ x ∈ mismatchEntries blocks prios labels dayKey,
            x.hours ≤ m.hours) := by
  have hpos : ∀ m ∈ mismatchEntries blocks prios labels dayKey, 0 < m.hours :=
    fun m hm => (mismatchEntries_spec blocks prios labels dayKey m hm).2.2.2
  have heq : weeklyBiggestMismatch blocks prios labels dayKey
      = firstAtMax (mismatchEntries blocks prios labels dayKey) := by
    unfold weeklyBiggestMismatch
    rw [foldl_mismatchStep labels prios (dayGroups blocks dayKey)
      ((none : Option Mismatch), 0)]
    exact foldBest_eq_firstAtMax _ hpos
  refine ⟨heq, ?_, ?_⟩
  · rw [heq]; exact firstAtMax_none_iff _
  · intro m hm
    rw [heq] at hm
    have hsplit := firstAtMax_split _ m hm
    have hmem : m ∈ mismatchEntries blocks prios labels dayKey := by
      obtain ⟨⟨pre, post, hl, _⟩, _⟩ := hsplit
      rw [hl]
      exact List.mem_append.mpr (Or.inr (List.mem_cons_self m post))
    exact ⟨(mismatchEntries_spec blocks prios labels dayKey m hmem).1,
      hsplit.1, hsplit.2⟩

/-- One Work block on a day whose declared priority matches no Work
keyword, for the C8 witness. -/
def c8Blocks : List TimeBlock :=
  [{ start := 0, endTime := 900000, label := "Work", note := none, dailyPriority := none }]

/-- The priorities map used by the C8 witness. -/
def c8Prios : List (String × String) := [("d1", "zzz")]

/-- Witness for C8 on a one-day week with a mismatching priority. -/
theorem c8_biggest_mismatch_witness :
    weeklyBiggestMismatch c8Blocks c8Prios DEFAULT_LABELS (fun _ => "d1")
      = firstAtMax (mismatchEntries c8Blocks c8Prios DEFAULT_LABELS (fun _ => "d1"))
    ∧ priorityMatches "zzz" "Work" = false := by
  have h := c8_biggest_mismatch c8Blocks c8Prios DEFAULT_LABELS (fun _ => "d1")
  have hsome : weeklyBiggestMismatch c8Blocks c8Prios DEFAULT_LABELS (fun _ => "d1")
      = some { day := "d1", priority := "zzz", actual := "Work", hours := 1 } := by
    decide
  exact ⟨h.1, (h.2.2 { day := "d1", priority := "zzz", actual := "Work", hours := 1 }
    hsome).1⟩

end TimeTracker
